import Mathlib

/-!
Verification of the retrieval-augmented chatbot pipeline in `src/app.py`
(Yash-Chatbot). Python strings are embedded as `List Char`; the pure
structure of each source function is translated directly, while behaviour
that the source delegates to third-party collaborators (the PDF page
extractor, the character text splitter, the conversational retrieval
chain) is modelled from the specification, as marked in the doc comments.
-/

namespace YashChatbot

/-- A Python string, embedded as its list of characters. -/
abbrev Str := List Char

/-- A document source: its ordered sequence of pages, each page given by
the text the external PDF parser extracts from it (`page.extract_text()`
is treated as an opaque input). -/
abbrev Document := List Str

/-- Translated from `extract_text` in src/app.py: starts from the empty
string and, iterating over the documents in order and over each
document's pages in order, appends each page's extracted text. -/
def extract_text (pdf_files : List Document) : Str :=
  pdf_files.foldl (fun text pdf_file => pdf_file.foldl (fun t page => t ++ page) text) []

/-! ### Extractor lemmas -/

theorem foldl_append_eq (pages : List Str) :
    ∀ acc : Str, pages.foldl (fun t page => t ++ page) acc = acc ++ pages.flatten := by
  induction pages with
  | nil => intro acc; simp
  | cons p ps ih => intro acc; simp [List.foldl_cons, ih, List.append_assoc]

theorem extract_text_go (pdf_files : List Document) :
    ∀ acc : Str,
      pdf_files.foldl (fun text pdf_file => pdf_file.foldl (fun t page => t ++ page) text) acc
        = acc ++ (pdf_files.map List.flatten).flatten := by
  induction pdf_files with
  | nil => intro acc; simp
  | cons d ds ih =>
      intro acc
      rw [List.foldl_cons, foldl_append_eq, ih]
      simp [List.append_assoc]

theorem extract_text_eq_flatten (pdf_files : List Document) :
    extract_text pdf_files = (pdf_files.map List.flatten).flatten := by
  simpa [extract_text] using extract_text_go pdf_files []

/-! ### Retrieval-conversation engine

The vector store and the conversational retrieval chain are third-party
collaborators in the source; their state visible to this repository is
the chunk set held by the index and the conversation history held by the
chain's memory. -/

/-- The vector index as visible to the pipeline: the chunk texts it was
built from (embeddings are internal to the external provider). -/
abbrev VectorIndex := List Str

/-- Translated from `get_vectorstore` in src/app.py: builds the index
from the chunk list (the embedding call is external and opaque). -/
def get_vectorstore (chunks : List Str) : VectorIndex := chunks

/-- A conversation turn: role and message text. -/
inductive Role where
  | user
  | assistant
deriving DecidableEq

/-- One entry of the conversation history. -/
structure Turn where
  role : Role
  text : Str
deriving DecidableEq

/-- The state of the conversational retrieval chain: the retriever's
vector index and the memory's chat history. -/
structure EngineState where
  index : VectorIndex
  history : List Turn
deriving DecidableEq

/-- Translated from `get_conversation_chain` in src/app.py: binds the
vector store as retriever and an initially-empty conversation memory. -/
def get_conversation_chain (vector_store : VectorIndex) : EngineState :=
  ⟨vector_store, []⟩

/-- The external chat model: from the index, the question and the prior
history it either returns an answer or raises an error. -/
abbrev ChatModel := VectorIndex → Str → List Turn → Except Str Str

/-- Modelled from the spec: the `ask` operation of the retrieval-conversation
engine (the chain invocation `st.session_state.conversations({'question': ...})`
delegated to the third-party chain in src/app.py line 124). It invokes the
chat model over the index, the question and the prior history; on success it
appends a user turn then an assistant turn to the history and returns the
answer; on failure the error propagates and the state is left unchanged. -/
def ask (cm : ChatModel) (st : EngineState) (question : Str) :
    Except Str Str × EngineState :=
  match cm st.index question st.history with
  | .error e => (.error e, st)
  | .ok answer =>
      (.ok answer, ⟨st.index, st.history ++ [⟨Role.user, question⟩, ⟨Role.assistant, answer⟩]⟩)

/-- The session state of src/app.py: the conversation chain handle and the
UI's copy of the chat history. -/
structure SessionState where
  conversations : EngineState
  chat_history : List Turn
deriving DecidableEq

/-- Translated from `generate_response` in src/app.py: calls the chain on
the question, then stores the chain's updated chat history in the session
state; if the chain call raises, the assignment never runs and the session
state is unchanged. -/
def generate_response (cm : ChatModel) (ss : SessionState) (question : Str) :
    Except Str Str × SessionState :=
  match ask cm ss.conversations question with
  | (.error e, _) => (.error e, ss)
  | (.ok answer, st) => (.ok answer, ⟨st, st.history⟩)

/-! ### Chunker

`get_chunks` in src/app.py delegates the splitting itself to the
third-party `CharacterTextSplitter`; the splitter's algorithm is modelled
from the spec (§4.2): chunks are windows of at most `chunk_size`
characters; a chunk ends at the last separator boundary inside its
window when one exists and is otherwise hard-cut at the window edge; each
chunk after the first begins `chunk_overlap` characters (or as many as
exist) before the previous chunk's end. A chunk is represented by its
half-open interval of positions in the text; the chunk string is the
corresponding slice. -/

/-- The substring of `text` covering positions `[s, e)`. -/
def slice (text : Str) (s e : Nat) : Str := (text.drop s).take (e - s)

/-- The largest position `j` with `lo < j ≤ e` such that the character at
position `j - 1` is the separator (so `j` is a clean break point), if any. -/
def lastSepBoundaryAux (sep : Char) (text : Str) (lo : Nat) : Nat → Option Nat
  | 0 => none
  | e + 1 =>
      if e + 1 ≤ lo then none
      else if text[e]? = some sep then some (e + 1)
      else lastSepBoundaryAux sep text lo e

/-- Modelled from the spec: the end of the chunk that follows a chunk
ending at position `e`. The new chunk starts at `e - chunk_overlap`; its
window extends `chunk_size` characters from there. If the text ends inside
the window the chunk runs to the end of the text; otherwise it ends at
the last separator boundary inside the window past `e`, or is hard-cut at
the window edge when no such boundary exists. -/
def nextChunkEnd (chunk_size chunk_overlap : Nat) (sep : Char) (text : Str) (e : Nat) : Nat :=
  if text.length ≤ (e - chunk_overlap) + chunk_size then text.length
  else
    match lastSepBoundaryAux sep text e ((e - chunk_overlap) + chunk_size) with
    | some j => j
    | none => (e - chunk_overlap) + chunk_size

/-- The successive chunk end positions, starting after a chunk that ended
at `e`; `fuel` bounds the recursion (each end strictly increases, so
`text.length` steps suffice). -/
def chunkEndsAux (chunk_size chunk_overlap : Nat) (sep : Char) (text : Str) (e : Nat) :
    Nat → List Nat
  | 0 => []
  | fuel + 1 =>
      if e < text.length then
        nextChunkEnd chunk_size chunk_overlap sep text e ::
          chunkEndsAux chunk_size chunk_overlap sep text
            (nextChunkEnd chunk_size chunk_overlap sep text e) fuel
      else []

/-- All chunk end positions of `text`. -/
def chunkEnds (chunk_size chunk_overlap : Nat) (sep : Char) (text : Str) : List Nat :=
  chunkEndsAux chunk_size chunk_overlap sep text 0 text.length

/-- Turns the list of chunk ends into position intervals: the first chunk
starts at `s`, and each later chunk starts `chunk_overlap` characters
before the previous chunk's end. -/
def intervalsOfEnds (chunk_overlap : Nat) : Nat → List Nat → List (Nat × Nat)
  | _, [] => []
  | s, e :: rest => (s, e) :: intervalsOfEnds chunk_overlap (e - chunk_overlap) rest

/-- The chunk intervals of `text`. -/
def chunkIntervals (chunk_size chunk_overlap : Nat) (sep : Char) (text : Str) :
    List (Nat × Nat) :=
  intervalsOfEnds chunk_overlap 0 (chunkEnds chunk_size chunk_overlap sep text)

/-- Modelled from the spec: `splitter.split_text(text)` — the ordered
chunk strings. -/
def split_text (chunk_size chunk_overlap : Nat) (sep : Char) (text : Str) : List Str :=
  (chunkIntervals chunk_size chunk_overlap sep text).map (fun p => slice text p.1 p.2)

/-- Translated from `get_chunks` in src/app.py: splits the raw text with
separator `"\n"`, chunk size 1000 and chunk overlap 200. -/
def get_chunks (text : Str) : List Str := split_text 1000 200 '\n' text

/-- Concatenation of the chunks at the given intervals with the
overlapping characters removed: from each chunk, the characters it shares
with the previous chunk (those before the previous chunk's end `pe`) are
dropped before appending. -/
def joinTail (text : Str) : Nat → List (Nat × Nat) → Str
  | _, [] => []
  | pe, (s, e) :: rest => (slice text s e).drop (pe - s) ++ joinTail text e rest

/-- Reconstruction of a text from its chunk intervals: concatenate the
chunk strings with overlaps removed. -/
def reconstruct (text : Str) (ints : List (Nat × Nat)) : Str := joinTail text 0 ints

/-- The well-formedness of a list of chunk ends continuing a chunk that
ended at `e`, in a text of length `n`: ends strictly increase, each end
stays inside its chunk's window, and the last end is exactly `n`. -/
def endsOK (chunk_size chunk_overlap n : Nat) : Nat → List Nat → Prop
  | e, [] => e = n
  | e, x :: rest =>
      e < x ∧ x ≤ (e - chunk_overlap) + chunk_size ∧ x ≤ n ∧
        endsOK chunk_size chunk_overlap n x rest

/-! ### Configuration validation (spec §7)

The chunk-size/overlap check is performed by the third-party splitter's
constructor (absent from src/); it is modelled from the spec. The
`setup` pipeline itself is in src/app.py (lines 211-228) and performs no
validation at all, so it is translated faithfully, with no error path. -/

/-- The spec's ConfigurationError kinds. -/
inductive ConfigError where
  | invalidOverlap
  | emptyRawText
deriving DecidableEq

/-- Modelled from the spec: chunking with the splitter constructor's
configuration validation (absent from src/app.py, performed by the
third-party splitter): a chunk overlap at least as large as the chunk
size is a ConfigurationError surfaced to the caller. -/
def checkedGetChunks (chunk_size chunk_overlap : Nat) (sep : Char) (text : Str) :
    Except ConfigError (List Str) :=
  if chunk_size ≤ chunk_overlap then .error ConfigError.invalidOverlap
  else .ok (split_text chunk_size chunk_overlap sep text)

/-- Translated from `setup` in src/app.py (lines 211-228): extracts the
raw text, chunks it, builds the vector store and binds the conversation
chain. The source performs no configuration validation: in particular an
empty document set, producing an empty RawText, flows through unchecked
and the pipeline completes normally. -/
def setup (pdf_files : List Document) : EngineState :=
  get_conversation_chain (get_vectorstore (get_chunks (extract_text pdf_files)))

/-! ### Chunker lemmas -/

theorem lastSepBoundaryAux_bounds (sep : Char) (text : Str) (lo : Nat) :
    ∀ e j, lastSepBoundaryAux sep text lo e = some j → lo < j ∧ j ≤ e := by
  intro e
  induction e with
  | zero => intro j h; simp [lastSepBoundaryAux] at h
  | succ e ih =>
      intro j h
      unfold lastSepBoundaryAux at h
      split at h
      · simp at h
      · split at h
        · rename_i hlo _
          injection h with hj
          omega
        · rcases ih j h with ⟨ha, hb⟩
          exact ⟨ha, by omega⟩

theorem nextChunkEnd_bounds (chunk_size chunk_overlap : Nat) (sep : Char) (text : Str)
    (e : Nat) (hcs : chunk_overlap < chunk_size) (he : e < text.length) :
    e < nextChunkEnd chunk_size chunk_overlap sep text e ∧
      nextChunkEnd chunk_size chunk_overlap sep text e ≤ text.length ∧
      nextChunkEnd chunk_size chunk_overlap sep text e
        ≤ (e - chunk_overlap) + chunk_size := by
  unfold nextChunkEnd
  split
  · rename_i hn
    exact ⟨he, le_refl _, hn⟩
  · rename_i hn
    split
    · rename_i j hj
      rcases lastSepBoundaryAux_bounds sep text e _ j hj with ⟨h1, h2⟩
      exact ⟨h1, by omega, h2⟩
    · exact ⟨by omega, by omega, le_refl _⟩

theorem chunkEndsAux_nil (chunk_size chunk_overlap : Nat) (sep : Char) (text : Str)
    (fuel e : Nat) (h : text.length ≤ e) :
    chunkEndsAux chunk_size chunk_overlap sep text e fuel = [] := by
  cases fuel with
  | zero => rfl
  | succ fuel =>
      have hlt : ¬ e < text.length := by omega
      simp [chunkEndsAux, hlt]

theorem endsOK_chunkEndsAux (chunk_size chunk_overlap : Nat) (sep : Char) (text : Str)
    (hcs : chunk_overlap < chunk_size) :
    ∀ fuel e, e ≤ text.length → text.length - e ≤ fuel →
      endsOK chunk_size chunk_overlap text.length e
        (chunkEndsAux chunk_size chunk_overlap sep text e fuel) := by
  intro fuel
  induction fuel with
  | zero =>
      intro e h1 h2
      have he : e = text.length := by omega
      simp [chunkEndsAux, endsOK, he]
  | succ fuel ih =>
      intro e h1 h2
      unfold chunkEndsAux
      split
      · rename_i hlt
        rcases nextChunkEnd_bounds chunk_size chunk_overlap sep text e hcs hlt
          with ⟨b1, b2, b3⟩
        simp only [endsOK]
        exact ⟨b1, b3, b2, ih _ b2 (by omega)⟩
      · rename_i hge
        have he : e = text.length := by omega
        simp [endsOK, he]

theorem slice_drop (text : Str) (s e k : Nat) :
    (slice text s e).drop k = slice text (s + k) e := by
  unfold slice
  rw [List.drop_take, List.drop_drop, Nat.sub_sub]

theorem slice_append_slice (text : Str) (s e f : Nat) (h1 : s ≤ e) (h2 : e ≤ f) :
    slice text s e ++ slice text e f = slice text s f := by
  unfold slice
  have hf : f - s = (e - s) + (f - e) := by omega
  rw [hf, List.take_add, List.drop_drop]
  have hse : s + (e - s) = e := by omega
  rw [hse]

theorem joinTail_eq (chunk_size chunk_overlap : Nat) (text : Str) :
    ∀ (ends : List Nat) (pe : Nat),
      endsOK chunk_size chunk_overlap text.length pe ends →
      joinTail text pe (intervalsOfEnds chunk_overlap (pe - chunk_overlap) ends)
        = slice text pe text.length := by
  intro ends
  induction ends with
  | nil =>
      intro pe h
      simp only [endsOK] at h
      simp [intervalsOfEnds, joinTail, h, slice]
  | cons x rest ih =>
      intro pe h
      simp only [endsOK] at h
      rcases h with ⟨h1, h2, h3, h4⟩
      simp only [intervalsOfEnds, joinTail]
      rw [slice_drop]
      have hs : (pe - chunk_overlap) + (pe - (pe - chunk_overlap)) = pe := by omega
      rw [hs, ih x h4, slice_append_slice text pe x text.length (by omega) h3]

theorem intervalsOfEnds_bounds (chunk_size chunk_overlap n : Nat) :
    ∀ (ends : List Nat) (e : Nat),
      endsOK chunk_size chunk_overlap n e ends →
      (∀ p ∈ intervalsOfEnds chunk_overlap (e - chunk_overlap) ends,
          p.2 - p.1 ≤ chunk_size) ∧
        List.Chain' (fun p q : Nat × Nat => p.2 - q.1 ≤ chunk_overlap ∧ q.1 ≤ p.2)
          (intervalsOfEnds chunk_overlap (e - chunk_overlap) ends) := by
  intro ends
  induction ends with
  | nil => intro e _; simp [intervalsOfEnds]
  | cons x rest ih =>
      intro e h
      simp only [endsOK] at h
      rcases h with ⟨h1, h2, h3, h4⟩
      rcases ih x h4 with ⟨ihm, ihc⟩
      constructor
      · intro p hp
        simp only [intervalsOfEnds, List.mem_cons] at hp
        rcases hp with rfl | hp
        · simp
          omega
        · exact ihm p hp
      · simp only [intervalsOfEnds]
        cases rest with
        | nil => simp [intervalsOfEnds]
        | cons y rest' =>
            simp only [intervalsOfEnds] at ihc ⊢
            exact List.chain'_cons.mpr ⟨⟨by omega, by omega⟩, ihc⟩

/-! ### Demo inputs used by witnesses -/

/-- A chat model that always answers `"ok"`. -/
def okModel : ChatModel := fun _ _ _ => .ok ['o', 'k']

/-- A chat model that always fails with error text `"err"`. -/
def errModel : ChatModel := fun _ _ _ => .error ['e', 'r', 'r']

/-- A small concrete session state. -/
def demoSession : SessionState := ⟨⟨[['c']], []⟩, []⟩

/-! ### Claims -/

/-- C1: for every question on which the chat invocation succeeds, one
`ask`/`generate_response` call appends exactly two turns to the
conversation history, in order — first a user turn whose text equals the
question, then an assistant turn whose text equals the model's answer —
so the history length increases by exactly 2. -/
theorem successful_ask_appends_two_turns (cm : ChatModel) (ss : SessionState)
    (question answer : Str)
    (h : cm ss.conversations.index question ss.conversations.history = .ok answer) :
    (generate_response cm ss question).2.conversations.history
        = ss.conversations.history
            ++ [⟨Role.user, question⟩, ⟨Role.assistant, answer⟩] ∧
      (generate_response cm ss question).2.conversations.history.length
        = ss.conversations.history.length + 2 ∧
      (generate_response cm ss question).1 = .ok answer := by
  simp [generate_response, ask, h]

/-- Witness for C1 at a concrete model, state and question. -/
theorem successful_ask_appends_two_turns_witness :
    okModel demoSession.conversations.index ['q'] demoSession.conversations.history
        = .ok ['o', 'k'] ∧
      (generate_response okModel demoSession ['q']).2.conversations.history
        = demoSession.conversations.history
            ++ [⟨Role.user, ['q']⟩, ⟨Role.assistant, ['o', 'k']⟩] ∧
      (generate_response okModel demoSession ['q']).2.conversations.history.length
        = demoSession.conversations.history.length + 2 ∧
      (generate_response okModel demoSession ['q']).1 = .ok ['o', 'k'] :=
  ⟨rfl, successful_ask_appends_two_turns okModel demoSession ['q'] ['o', 'k'] rfl⟩

/-- C2: for every question on which the chat-model invocation fails, the
`ask`/`generate_response` operation leaves the whole session state — in
particular the conversation history — exactly as it was, and the failure
is surfaced as an `Except.error`, distinguishable from a normal answer. -/
theorem failed_ask_leaves_history_unchanged (cm : ChatModel) (ss : SessionState)
    (question e : Str)
    (h : cm ss.conversations.index question ss.conversations.history = .error e) :
    (generate_response cm ss question).2 = ss ∧
      (generate_response cm ss question).1 = .error e := by
  simp [generate_response, ask, h]

/-- Witness for C2 at a concrete failing model. -/
theorem failed_ask_leaves_history_unchanged_witness :
    errModel demoSession.conversations.index ['q'] demoSession.conversations.history
        = .error ['e', 'r', 'r'] ∧
      (generate_response errModel demoSession ['q']).2 = demoSession ∧
      (generate_response errModel demoSession ['q']).1 = .error ['e', 'r', 'r'] :=
  ⟨rfl, failed_ask_leaves_history_unchanged errModel demoSession ['q'] ['e', 'r', 'r'] rfl⟩

/-- C3: `extract_text` returns the concatenation, in input order, of the
per-page extracted text of every page of every document, in page order;
on the empty input it returns the empty string. -/
theorem extract_text_is_ordered_concatenation (pdf_files : List Document) :
    extract_text pdf_files = (pdf_files.map List.flatten).flatten ∧
      extract_text [] = [] :=
  ⟨extract_text_eq_flatten pdf_files, rfl⟩

/-- C4: with chunk size 1000 and chunk overlap 200 (the configuration of
`get_chunks`), every produced chunk has length at most 1000, and every
pair of consecutive chunks — given by their position intervals in the
text, of which the chunks are the slices — overlaps in at most 200
positions (the next interval starts at most 200 characters before the
previous one ends, and never before it begins). -/
theorem chunk_length_and_overlap_bounds (text : Str) :
    (∀ c ∈ get_chunks text, c.length ≤ 1000) ∧
      List.Chain' (fun p q : Nat × Nat => p.2 - q.1 ≤ 200 ∧ q.1 ≤ p.2)
        (chunkIntervals 1000 200 '\n' text) := by
  have hok : endsOK 1000 200 text.length 0 (chunkEnds 1000 200 '\n' text) :=
    endsOK_chunkEndsAux 1000 200 '\n' text (by omega) text.length 0
      (by omega) (by omega)
  have hb := intervalsOfEnds_bounds 1000 200 text.length
    (chunkEnds 1000 200 '\n' text) 0 hok
  have h0 : (0 : Nat) - 200 = 0 := rfl
  rw [h0] at hb
  constructor
  · intro c hc
    simp only [get_chunks, split_text, List.mem_map] at hc
    rcases hc with ⟨p, hp, rfl⟩
    have hple := hb.1 p (by simpa [chunkIntervals] using hp)
    have hlen : (slice text p.1 p.2).length = min (p.2 - p.1) (text.length - p.1) := by
      simp [slice]
    rw [hlen]
    omega
  · simpa [chunkIntervals] using hb.2

/-- C5: concatenating the chunks produced by the Chunker with the
overlapping characters removed reconstructs the original input text; in
this model the round trip holds for every text, in particular for texts
in which the separator occurs at clean boundaries within every
chunk-size window. -/
theorem chunker_round_trip (text : Str) :
    reconstruct text (chunkIntervals 1000 200 '\n' text) = text := by
  have hok : endsOK 1000 200 text.length 0 (chunkEnds 1000 200 '\n' text) :=
    endsOK_chunkEndsAux 1000 200 '\n' text (by omega) text.length 0
      (by omega) (by omega)
  have h := joinTail_eq 1000 200 text (chunkEnds 1000 200 '\n' text) 0 hok
  have h0 : (0 : Nat) - 200 = 0 := rfl
  rw [h0] at h
  unfold reconstruct chunkIntervals
  rw [h]
  simp [slice]

/-- C6: every non-empty text of length at most the chunk size yields
exactly one chunk, equal to the input; the empty text yields the empty
chunk sequence. -/
theorem single_chunk_short_text (text : Str) (h1 : text ≠ [])
    (h2 : text.length ≤ 1000) :
    get_chunks text = [text] ∧ get_chunks ([] : Str) = [] := by
  refine ⟨?_, rfl⟩
  have hends : chunkEnds 1000 200 '\n' text = [text.length] := by
    unfold chunkEnds
    cases text with
    | nil => simp at h1
    | cons a as =>
        have hle : (a :: as).length ≤ (0 - 200) + 1000 := by
          simp only [List.length_cons] at h2 ⊢
          omega
        have hne : nextChunkEnd 1000 200 '\n' (a :: as) 0 = (a :: as).length := by
          unfold nextChunkEnd
          rw [if_pos hle]
        show chunkEndsAux 1000 200 '\n' (a :: as) 0 (as.length + 1)
          = [(a :: as).length]
        simp only [chunkEndsAux]
        rw [if_pos (by simp), hne,
          chunkEndsAux_nil 1000 200 '\n' (a :: as) as.length (a :: as).length
            (le_refl _)]
  unfold get_chunks split_text chunkIntervals
  rw [hends]
  simp [intervalsOfEnds, slice]

/-- Witness for C6 at the concrete two-character text `"ab"`. -/
theorem single_chunk_short_text_witness :
    (['a', 'b'] : Str) ≠ [] ∧ (['a', 'b'] : Str).length ≤ 1000 ∧
      get_chunks ['a', 'b'] = [['a', 'b']] ∧ get_chunks ([] : Str) = [] :=
  ⟨by decide, by decide, single_chunk_short_text ['a', 'b'] (by decide) (by decide)⟩

/-- C7: the conversation history of a freshly constructed chain is empty
(hence of even length), and an even history length is preserved by every
`ask`/`generate_response` call, whether the chat model succeeds or
fails. -/
theorem history_even_length_invariant (cm : ChatModel) (vs : VectorIndex)
    (ss : SessionState) (question : Str)
    (h : Even ss.conversations.history.length) :
    Even (get_conversation_chain vs).history.length ∧
      Even (generate_response cm ss question).2.conversations.history.length := by
  refine ⟨⟨0, rfl⟩, ?_⟩
  rcases hcall : cm ss.conversations.index question ss.conversations.history
    with e | answer
  · simp only [generate_response, ask, hcall]
    exact h
  · simp only [generate_response, ask, hcall]
    rcases h with ⟨k, hk⟩
    refine ⟨k + 1, ?_⟩
    simp [List.length_append]
    omega

/-- Witness for C7 at the concrete empty-history session. -/
theorem history_even_length_invariant_witness :
    Even demoSession.conversations.history.length ∧
      Even (get_conversation_chain [['c']]).history.length ∧
      Even (generate_response okModel demoSession ['q']).2.conversations.history.length :=
  ⟨by decide, history_even_length_invariant okModel [['c']] demoSession ['q'] (by decide)⟩

/-- C8, counterexample to the claim as stated: at the concrete empty
document set — which produces the empty RawText — `setup` (src/app.py,
lines 211-228) surfaces no ConfigurationError: it completes normally,
returning the engine state built over the empty chunk set. -/
theorem empty_docs_surface_no_configuration_error :
    extract_text ([] : List Document) = [] ∧
      setup [] = (⟨[], []⟩ : EngineState) :=
  ⟨rfl, rfl⟩

/-- C8 (amended): a chunk overlap at least the chunk size surfaces a
ConfigurationError to the immediate caller of the splitter construction,
unrecovered; but an empty document set producing an empty RawText is not
detected — `setup` performs no such validation and completes normally,
building the chain over the empty chunk set. -/
theorem overlap_error_surfaces_empty_rawtext_passes (chunk_size chunk_overlap : Nat)
    (sep : Char) (text : Str) (pdf_files : List Document)
    (hov : chunk_size ≤ chunk_overlap) (hdocs : extract_text pdf_files = []) :
    checkedGetChunks chunk_size chunk_overlap sep text
        = .error ConfigError.invalidOverlap ∧
      setup pdf_files = get_conversation_chain (get_vectorstore (get_chunks [])) := by
  constructor
  · simp [checkedGetChunks, hov]
  · unfold setup
    rw [hdocs]

/-- Witness for the amended C8 at overlap 0 = size 0 and the empty
document set. -/
theorem overlap_error_surfaces_empty_rawtext_passes_witness :
    (0 : Nat) ≤ 0 ∧ extract_text [] = [] ∧
      checkedGetChunks 0 0 'x' ['a'] = .error ConfigError.invalidOverlap ∧
      setup [] = get_conversation_chain (get_vectorstore (get_chunks [])) :=
  ⟨by decide, rfl,
    overlap_error_surfaces_empty_rawtext_passes 0 0 'x' ['a'] [] (by decide) rfl⟩

/-- C9: the vector index is the one built by `get_vectorstore` and handed
to the chain at setup, and every `ask`/`generate_response` call leaves it
unchanged, mutating only the conversation history. -/
theorem ask_preserves_vector_index (cm : ChatModel) (ss : SessionState)
    (question : Str) (chunks : List Str) :
    (generate_response cm ss question).2.conversations.index
        = ss.conversations.index ∧
      (get_conversation_chain (get_vectorstore chunks)).index
        = get_vectorstore chunks := by
  refine ⟨?_, rfl⟩
  rcases hcall : cm ss.conversations.index question ss.conversations.history
    with e | answer <;>
    simp [generate_response, ask, hcall]

/-- C10: `extract_text` is a homomorphism from list concatenation to
string concatenation. -/
theorem extract_text_homomorphism (xs ys : List Document) :
    extract_text (xs ++ ys) = extract_text xs ++ extract_text ys := by
  simp [extract_text_eq_flatten]

end YashChatbot
